import Mathlib

/-!
Verification of the signal backtesting engine of TradeSageSignal
(`src/backtester.py`, function `run_backtest`), as described in the
specification's §4 (Trade Outcome Simulator, Backtest Aggregator).

Shallow embedding conventions:
* Prices (open/high/low/close, stops, targets, profit percentages) are
  rationals `ℚ`; bar timestamps are naturals `ℕ` (the source formats all
  timestamps with the fixed-width pattern `%Y-%m-%d %H:%M:%S`, whose
  lexicographic string order agrees with chronological order, so a `ℕ`
  key is an order-faithful model).
* Python exceptions are modelled with `Except Unit`: the profit-loss
  expression `(exit - entry) / entry * 100` raises `ZeroDivisionError`
  when `entry` is `0.0` (backtester.py lines 116/123/131/...), so the
  embedded computation returns `.error ()` there instead of using the
  rational convention `x / 0 = 0`.
* The pandas timestamp lookup (`get_indexer` with the nearest-timestamp
  fallback, lines 78-84) is not arithmetic; it is modelled abstractly by
  an `Option ℕ` field on each collected signal: `some i` means the
  anchor resolved to position `i` of the bar series, `none` means both
  lookups raised, which in the source triggers the `continue` at line 90
  that leaves the signal in the list with `profit_loss = None`.
-/

deriving instance DecidableEq for Except

namespace TradeSage

/-- Direction of a signal, the `signal_type` field (`'LONG'`/`'SHORT'`). -/
inductive SignalType where
  | LONG
  | SHORT
deriving DecidableEq, Repr

/-- Exit reason strings assigned by the simulation loop:
`'Stop Loss'`, `'Target 1'`, `'Target 2'`, `'End of data'`. -/
inductive ExitReason where
  | StopLoss
  | Target1
  | Target2
  | EndOfData
deriving DecidableEq, Repr

/-- One OHLCV bar, restricted to the fields the backtester reads:
its index timestamp and the `high`/`low`/`close` columns
(backtester.py lines 108-110 and 159). -/
structure Bar where
  ts : ℕ
  high : ℚ
  low : ℚ
  close : ℚ
deriving DecidableEq, Repr

/-- A non-terminal signal as consumed by the simulation loop
(backtester.py lines 69-75): anchor timestamp, entry/stop/target prices,
direction and strategy label.  Fields the backtester never reads
(id, symbol, leverage, risk percent) are omitted. -/
structure Signal where
  timestamp : ℕ
  entry_price : ℚ
  stop_loss : ℚ
  target1 : ℚ
  target2 : ℚ
  signal_type : SignalType
  strategy : String
deriving DecidableEq, Repr

/-- The exit fields the simulator appends to a signal
(backtester.py lines 169-173 and 94-97). -/
structure Outcome where
  exit_price : ℚ
  exit_time : ℕ
  profit_loss : ℚ
  exit_reason : ExitReason
deriving DecidableEq, Repr

/-- The profit-loss expression of the simulation loop
(`(exit_price - entry_price) / entry_price * 100` for LONG,
`(entry_price - exit_price) / entry_price * 100` for SHORT,
lines 116/123/131/138/146/153/163/165).  Python raises
`ZeroDivisionError` when `entry_price` is zero, modelled as `.error`. -/
def plOf (sig : Signal) (xp : ℚ) : Except Unit ℚ :=
  if sig.entry_price = 0 then .error ()
  else match sig.signal_type with
    | .LONG => .ok ((xp - sig.entry_price) / sig.entry_price * 100)
    | .SHORT => .ok ((sig.entry_price - xp) / sig.entry_price * 100)

/-- The scan over future bars (backtester.py lines 107-155): on each bar
check, in order, stop-loss, target1, target2 for the signal's direction;
the first hit returns the bar, the exit reason and the exit price.
`none` means no condition fired on any bar. -/
def scanBars (sig : Signal) : List Bar → Option (Bar × ExitReason × ℚ)
  | [] => none
  | b :: rest =>
    match sig.signal_type with
    | .LONG =>
      if b.low ≤ sig.stop_loss then some (b, .StopLoss, sig.stop_loss)
      else if sig.target1 ≤ b.high then some (b, .Target1, sig.target1)
      else if sig.target2 ≤ b.high then some (b, .Target2, sig.target2)
      else scanBars sig rest
    | .SHORT =>
      if sig.stop_loss ≤ b.high then some (b, .StopLoss, sig.stop_loss)
      else if b.low ≤ sig.target1 then some (b, .Target1, sig.target1)
      else if b.low ≤ sig.target2 then some (b, .Target2, sig.target2)
      else scanBars sig rest

/-- The Trade Outcome Simulator (backtester.py lines 92-173): empty
future data yields the flat end-of-data outcome (lines 92-98); otherwise
the scan either exits at the first hit bar, or the trade is closed at the
last future bar's close with reason end-of-data (lines 158-167). -/
def simulate (sig : Signal) (future : List Bar) : Except Unit Outcome :=
  match future with
  | [] =>
    .ok { exit_price := sig.entry_price, exit_time := sig.timestamp,
          profit_loss := 0, exit_reason := .EndOfData }
  | b :: rest =>
    match scanBars sig (b :: rest) with
    | some (bar, reason, xp) =>
      match plOf sig xp with
      | .ok pl =>
        .ok { exit_price := xp, exit_time := bar.ts,
              profit_loss := pl, exit_reason := reason }
      | .error e => .error e
    | none =>
      let lastBar := (b :: rest).getLast (List.cons_ne_nil b rest)
      match plOf sig lastBar.close with
      | .ok pl =>
        .ok { exit_price := lastBar.close, exit_time := lastBar.ts,
              profit_loss := pl, exit_reason := .EndOfData }
      | .error e => .error e

/-- Condition under which the source's stop-loss check fires on a bar
(line 113 for LONG: `low <= stop_loss`; line 120 for SHORT:
`high >= stop_loss`). -/
def stopCond (sig : Signal) (b : Bar) : Prop :=
  (sig.signal_type = .LONG ∧ b.low ≤ sig.stop_loss) ∨
  (sig.signal_type = .SHORT ∧ sig.stop_loss ≤ b.high)

/-- Condition under which the source's target1 check fires on a bar
(line 128 for LONG: `high >= target1`; line 135 for SHORT:
`low <= target1`). -/
def t1Cond (sig : Signal) (b : Bar) : Prop :=
  (sig.signal_type = .LONG ∧ sig.target1 ≤ b.high) ∨
  (sig.signal_type = .SHORT ∧ b.low ≤ sig.target1)

/-- Condition under which the source's target2 check fires on a bar
(line 143 for LONG: `high >= target2`; line 150 for SHORT:
`low <= target2`). -/
def t2Cond (sig : Signal) (b : Bar) : Prop :=
  (sig.signal_type = .LONG ∧ sig.target2 ≤ b.high) ∨
  (sig.signal_type = .SHORT ∧ b.low ≤ sig.target2)

/-- Any of the three exit conditions holds on the bar. -/
def anyExitCond (sig : Signal) (b : Bar) : Prop :=
  stopCond sig b ∨ t1Cond sig b ∨ t2Cond sig b

instance (sig : Signal) (b : Bar) : Decidable (stopCond sig b) := by
  unfold stopCond; infer_instance

instance (sig : Signal) (b : Bar) : Decidable (t1Cond sig b) := by
  unfold t1Cond; infer_instance

instance (sig : Signal) (b : Bar) : Decidable (t2Cond sig b) := by
  unfold t2Cond; infer_instance

instance (sig : Signal) (b : Bar) : Decidable (anyExitCond sig b) := by
  unfold anyExitCond; infer_instance

/-- The exit the spec prescribes on a bar where some condition holds:
stop-loss first, then target1, then target2. -/
def firstHitExit (sig : Signal) (b : Bar) : ExitReason × ℚ :=
  if stopCond sig b then (.StopLoss, sig.stop_loss)
  else if t1Cond sig b then (.Target1, sig.target1)
  else (.Target2, sig.target2)

/-- Sum of the positive profit-loss values
(`winning_sum`, backtester.py line 210). -/
def winningSum (pls : List ℚ) : ℚ :=
  (pls.filter (fun p => 0 < p)).sum

/-- Absolute value of the sum of the negative profit-loss values
(`losing_sum`, backtester.py line 211). -/
def losingSum (pls : List ℚ) : ℚ :=
  |(pls.filter (fun p => p < 0)).sum|

/-- The profit-factor computation with its zero-loss fallback
(backtester.py lines 213-216). -/
def profitFactor (pls : List ℚ) : ℚ :=
  if 0 < losingSum pls then winningSum pls / losingSum pls
  else if 0 < winningSum pls then winningSum pls else 0

/-- Per-strategy accumulator fields initialised at backtester.py
lines 224-230. -/
structure StratAcc where
  count : ℕ
  win_count : ℕ
  loss_count : ℕ
  profit_sum : ℚ
  loss_sum : ℚ
deriving DecidableEq, Repr

/-- Fresh accumulator (all zeros, backtester.py lines 224-230). -/
def StratAcc.init : StratAcc :=
  { count := 0, win_count := 0, loss_count := 0, profit_sum := 0, loss_sum := 0 }

/-- One step of the per-strategy tally (backtester.py lines 232-239):
count always increments; a positive profit-loss increments `win_count`
and adds to `profit_sum`, otherwise `loss_count` increments and the
absolute value is added to `loss_sum`. -/
def StratAcc.update (a : StratAcc) (pl : ℚ) : StratAcc :=
  { count := a.count + 1,
    win_count := a.win_count + (if 0 < pl then 1 else 0),
    loss_count := a.loss_count + (if 0 < pl then 0 else 1),
    profit_sum := a.profit_sum + (if 0 < pl then pl else 0),
    loss_sum := a.loss_sum + (if 0 < pl then 0 else |pl|) }

/-- Insertion-ordered map update modelling the Python dict access in
backtester.py lines 221-239: a present key is updated in place, an
absent key is appended with a fresh accumulator. -/
def updMap : List (String × StratAcc) → String → ℚ → List (String × StratAcc)
  | [], key, pl => [(key, StratAcc.init.update pl)]
  | (k, a) :: rest, key, pl =>
    if k = key then (k, a.update pl) :: rest
    else (k, a) :: updMap rest key pl

/-- Lookup in the insertion-ordered strategy map. -/
def findAcc (key : String) : List (String × StratAcc) → Option StratAcc
  | [] => none
  | (k, a) :: rest => if k = key then some a else findAcc key rest

/-- The per-strategy tally over the terminal signal collection
(backtester.py lines 219-239). -/
def buildStratPerf (terms : List (Signal × Outcome)) : List (String × StratAcc) :=
  terms.foldl (fun m t => updMap m t.1.strategy t.2.profit_loss) []

/-- Per-strategy record after the second pass (backtester.py
lines 242-248) adds `win_rate` and `profit_factor`. -/
structure StratPerf where
  count : ℕ
  win_count : ℕ
  loss_count : ℕ
  profit_sum : ℚ
  loss_sum : ℚ
  win_rate : ℚ
  profit_factor : ℚ
deriving DecidableEq, Repr

/-- The second pass over a strategy's accumulator (backtester.py lines
242-248): `win_rate = win_count / count * 100` guarded by `count > 0`,
and `profit_factor = profit_sum / loss_sum` guarded by `loss_sum > 0`
with the `profit_sum`-or-zero fallback. -/
def finalizePerf (a : StratAcc) : StratPerf :=
  { count := a.count, win_count := a.win_count, loss_count := a.loss_count,
    profit_sum := a.profit_sum, loss_sum := a.loss_sum,
    win_rate := if 0 < a.count then (a.win_count : ℚ) / (a.count : ℚ) * 100 else 0,
    profit_factor :=
      if 0 < a.loss_sum then a.profit_sum / a.loss_sum
      else if 0 < a.profit_sum then a.profit_sum else 0 }

/-- Stable insertion of a terminal signal into a list sorted by anchor
timestamp: an element moves ahead only of strictly later anchors, so
equal anchors keep their original order, as Python's stable `sorted`
(backtester.py line 194) does. -/
def insertByTs (t : Signal × Outcome) :
    List (Signal × Outcome) → List (Signal × Outcome)
  | [] => [t]
  | u :: rest =>
    if t.1.timestamp < u.1.timestamp then t :: u :: rest
    else u :: insertByTs t rest

/-- Sort the terminal signals by anchor timestamp (backtester.py
line 194, `sorted(signals, key=lambda s: s['timestamp'])`). -/
def sortByTs : List (Signal × Outcome) → List (Signal × Outcome)
  | [] => []
  | t :: rest => insertByTs t (sortByTs rest)

/-- Profit-loss values of a terminal signal collection, in order. -/
def plsOf (terms : List (Signal × Outcome)) : List ℚ :=
  terms.map (fun t => t.2.profit_loss)

/-- The equity curve of backtester.py lines 197-200: start at `e`
(the source starts at 100), then append
`previous * (1 + profit_loss / 100)` for each signal. -/
def equityCurve (e : ℚ) : List ℚ → List ℚ
  | [] => [e]
  | pl :: rest => e :: equityCurve (e * (1 + pl / 100)) rest

/-- Running maxima continuing from an already-seen maximum `m`. -/
def runningMaxAux (m : ℚ) : List ℚ → List ℚ
  | [] => []
  | x :: xs => max m x :: runningMaxAux (max m x) xs

/-- Prefix maxima of a list, as `np.maximum.accumulate`
(backtester.py line 203). -/
def accumMax : List ℚ → List ℚ
  | [] => []
  | x :: xs => x :: runningMaxAux x xs

/-- Maximum of a list of rationals; Python's `max` raises on an empty
list, but every call site here passes a non-empty one (the equity curve
always contains its starting point), so the `[]` case is unreachable
and fixed at 0. -/
def listMax : List ℚ → ℚ
  | [] => 0
  | x :: xs => xs.foldl max x

/-- Maximum drawdown of an equity curve (backtester.py lines 203-205):
elementwise `(running_max - equity) / running_max * 100`, then the
maximum. -/
def maxDrawdownOfCurve (curve : List ℚ) : ℚ :=
  listMax (List.zipWith (fun m e => (m - e) / m * 100) (accumMax curve) curve)

/-- The aggregate record returned by `run_backtest`
(backtester.py lines 251-261). -/
structure BacktestResult where
  total_signals : ℕ
  winning_signals : ℕ
  losing_signals : ℕ
  win_rate : ℚ
  avg_profit : ℚ
  max_drawdown : ℚ
  profit_factor : ℚ
  signals : List (Signal × Outcome)
  strategy_performance : List (String × StratPerf)
deriving DecidableEq, Repr

/-- The statistics pass over a collection of terminal signals
(backtester.py lines 176-261), assuming every signal carries a numeric
profit-loss. -/
def computeStats (terms : List (Signal × Outcome)) : BacktestResult :=
  let pls := plsOf terms
  let total := terms.length
  let winning := (pls.filter (fun p => 0 < p)).length
  let losing := (pls.filter (fun p => p ≤ 0)).length
  { total_signals := total,
    winning_signals := winning,
    losing_signals := losing,
    win_rate := if 0 < total then (winning : ℚ) / (total : ℚ) * 100 else 0,
    avg_profit := if 0 < total then pls.sum / (total : ℚ) else 0,
    max_drawdown :=
      if 0 < total then maxDrawdownOfCurve (equityCurve 100 (plsOf (sortByTs terms)))
      else 0,
    profit_factor := profitFactor pls,
    signals := terms,
    strategy_performance := (buildStratPerf terms).map (fun p => (p.1, finalizePerf p.2)) }

/-- A signal as collected by the replay loop together with the result of
resolving its anchor timestamp in the bar series' index: `some i` is the
resolved position, `none` means both the direct lookup and the
nearest-timestamp fallback raised (backtester.py lines 78-84). -/
structure CollectedSignal where
  sig : Signal
  entryIdx : Option ℕ
deriving DecidableEq, Repr

/-- The simulation loop over collected signals (backtester.py
lines 66-173): an unresolvable anchor runs the `continue` at line 90,
leaving the signal in the list with no outcome (`profit_loss = None`);
a resolved anchor simulates against the bars strictly after it
(`df.iloc[entry_idx+1:]`, line 86); an exception inside `simulate`
(the zero-entry division) propagates out of the loop, which has no
per-signal handler around lines 92-173. -/
def simulatePhase (bars : List Bar) :
    List CollectedSignal → Except Unit (List (Signal × Option Outcome))
  | [] => .ok []
  | c :: rest =>
    match c.entryIdx with
    | none => (simulatePhase bars rest).map (fun l => (c.sig, none) :: l)
    | some i =>
      match simulate c.sig (bars.drop (i + 1)) with
      | .ok o => (simulatePhase bars rest).map (fun l => (c.sig, some o) :: l)
      | .error e => .error e

/-- Checks that every signal carries an outcome; the first one without
makes the whole list `none`. -/
def allSome : List (Signal × Option Outcome) → Option (List (Signal × Outcome))
  | [] => some []
  | (s, some o) :: rest => (allSome rest).map (fun l => (s, o) :: l)
  | (_, none) :: _ => none

/-- The statistics phase applied to the simulation loop's output.  Its
first operation (backtester.py line 177) compares every signal's
profit-loss with 0; in Python `None > 0` raises `TypeError`, so a single
outcome-less (skipped) signal makes the whole phase raise, modelled as
`.error ()`. -/
def aggregate (l : List (Signal × Option Outcome)) : Except Unit BacktestResult :=
  match allSome l with
  | some terms => .ok (computeStats terms)
  | none => .error ()

/-- The body of `run_backtest` after the data check: simulation loop
then statistics (backtester.py lines 66-263). -/
def runBacktestBody (bars : List Bar) (collected : List CollectedSignal) :
    Except Unit BacktestResult :=
  match simulatePhase bars collected with
  | .ok simmed => aggregate simmed
  | .error e => .error e

/-- `run_backtest` at its boundary: `None` when the fetched bar series is
`None` or empty (backtester.py lines 31-33), and the top-level
`try/except` (lines 23, 265-267) converts any exception from the body
into `None`; otherwise the computed result is returned. -/
def runBacktest (df : Option (List Bar)) (collected : List CollectedSignal) :
    Option BacktestResult :=
  match df with
  | none => none
  | some [] => none
  | some (b :: bs) =>
    match runBacktestBody (b :: bs) collected with
    | .ok r => some r
    | .error _ => none

/-! Helper lemmas about the scan and the simulator. -/

lemma scanBars_cons_hit (sig : Signal) (b : Bar) (post : List Bar)
    (h : anyExitCond sig b) :
    scanBars sig (b :: post) = some (b, firstHitExit sig b) := by
  cases htype : sig.signal_type with
  | LONG =>
    have hstop : stopCond sig b ↔ b.low ≤ sig.stop_loss := by simp [stopCond, htype]
    have ht1 : t1Cond sig b ↔ sig.target1 ≤ b.high := by simp [t1Cond, htype]
    have ht2 : t2Cond sig b ↔ sig.target2 ≤ b.high := by simp [t2Cond, htype]
    by_cases h1 : b.low ≤ sig.stop_loss
    · simp [scanBars, htype, h1, firstHitExit, hstop, ht1, ht2]
    · by_cases h2 : sig.target1 ≤ b.high
      · simp [scanBars, htype, h1, h2, firstHitExit, hstop, ht1, ht2]
      · have h3 : sig.target2 ≤ b.high := by
          rcases h with hs | ht | ht'
          · exact absurd (hstop.mp hs) h1
          · exact absurd (ht1.mp ht) h2
          · exact ht2.mp ht'
        simp [scanBars, htype, h1, h2, h3, firstHitExit, hstop, ht1, ht2]
  | SHORT =>
    have hstop : stopCond sig b ↔ sig.stop_loss ≤ b.high := by simp [stopCond, htype]
    have ht1 : t1Cond sig b ↔ b.low ≤ sig.target1 := by simp [t1Cond, htype]
    have ht2 : t2Cond sig b ↔ b.low ≤ sig.target2 := by simp [t2Cond, htype]
    by_cases h1 : sig.stop_loss ≤ b.high
    · simp [scanBars, htype, h1, firstHitExit, hstop, ht1, ht2]
    · by_cases h2 : b.low ≤ sig.target1
      · simp [scanBars, htype, h1, h2, firstHitExit, hstop, ht1, ht2]
      · have h3 : b.low ≤ sig.target2 := by
          rcases h with hs | ht | ht'
          · exact absurd (hstop.mp hs) h1
          · exact absurd (ht1.mp ht) h2
          · exact ht2.mp ht'
        simp [scanBars, htype, h1, h2, h3, firstHitExit, hstop, ht1, ht2]

lemma scanBars_cons_skip (sig : Signal) (b : Bar) (rest : List Bar)
    (h : ¬ anyExitCond sig b) :
    scanBars sig (b :: rest) = scanBars sig rest := by
  have hs : ¬ stopCond sig b := fun hc => h (Or.inl hc)
  have h1 : ¬ t1Cond sig b := fun hc => h (Or.inr (Or.inl hc))
  have h2 : ¬ t2Cond sig b := fun hc => h (Or.inr (Or.inr hc))
  cases htype : sig.signal_type with
  | LONG =>
    have hA : ¬ b.low ≤ sig.stop_loss := fun hc => hs (Or.inl ⟨htype, hc⟩)
    have hB : ¬ sig.target1 ≤ b.high := fun hc => h1 (Or.inl ⟨htype, hc⟩)
    have hC : ¬ sig.target2 ≤ b.high := fun hc => h2 (Or.inl ⟨htype, hc⟩)
    simp [scanBars, htype, hA, hB, hC]
  | SHORT =>
    have hA : ¬ sig.stop_loss ≤ b.high := fun hc => hs (Or.inr ⟨htype, hc⟩)
    have hB : ¬ b.low ≤ sig.target1 := fun hc => h1 (Or.inr ⟨htype, hc⟩)
    have hC : ¬ b.low ≤ sig.target2 := fun hc => h2 (Or.inr ⟨htype, hc⟩)
    simp [scanBars, htype, hA, hB, hC]

lemma plOf_ok_of_ne (sig : Signal) (xp : ℚ) (hne : sig.entry_price ≠ 0) :
    ∃ pl, plOf sig xp = .ok pl := by
  unfold plOf
  rw [if_neg hne]
  cases sig.signal_type <;> exact ⟨_, rfl⟩

/-- C1: for every signal, on a future-bar sequence whose first
condition-satisfying bar is `b`, the scan exits exactly on `b`, with
stop-loss taking priority over target1 and target1 over target2; with a
nonzero entry price, the simulator therefore reports `b`'s timestamp as
exit time and the priority-selected reason and price. -/
theorem scan_exits_on_first_hit_with_stop_priority
    (sig : Signal) (pre post : List Bar) (b : Bar)
    (hpre : ∀ x ∈ pre, ¬ anyExitCond sig x) (hb : anyExitCond sig b) :
    scanBars sig (pre ++ b :: post) = some (b, firstHitExit sig b) ∧
    (stopCond sig b → firstHitExit sig b = (.StopLoss, sig.stop_loss)) ∧
    (¬ stopCond sig b → t1Cond sig b →
      firstHitExit sig b = (.Target1, sig.target1)) ∧
    (¬ stopCond sig b → ¬ t1Cond sig b →
      firstHitExit sig b = (.Target2, sig.target2)) ∧
    (sig.entry_price ≠ 0 → ∃ pl, simulate sig (pre ++ b :: post) =
      .ok { exit_price := (firstHitExit sig b).2, exit_time := b.ts,
            profit_loss := pl, exit_reason := (firstHitExit sig b).1 }) := by
  have hscan : scanBars sig (pre ++ b :: post) = some (b, firstHitExit sig b) := by
    induction pre with
    | nil => simpa using scanBars_cons_hit sig b post hb
    | cons p ps ih =>
      have hp : ¬ anyExitCond sig p := hpre p (by simp)
      rw [List.cons_append, scanBars_cons_skip sig p _ hp]
      exact ih (fun x hx => hpre x (by simp [hx]))
  refine ⟨hscan, ?_, ?_, ?_, ?_⟩
  · intro hst; simp [firstHitExit, hst]
  · intro hst h1; simp [firstHitExit, hst, h1]
  · intro hst h1; simp [firstHitExit, hst, h1]
  · intro hne
    obtain ⟨pl, hpl⟩ := plOf_ok_of_ne sig (firstHitExit sig b).2 hne
    refine ⟨pl, ?_⟩
    rcases hlist : pre ++ b :: post with _ | ⟨hd, tl⟩
    · exact absurd hlist (by simp)
    · rw [hlist] at hscan
      simp [simulate, hscan, hpl]

/-- Concrete run of C1: a LONG signal (entry 100, stop 95, target1 110,
target2 120), one clear bar then a bar whose high reaches target1. -/
theorem scan_exits_on_first_hit_witness :
    scanBars (Signal.mk 1 100 95 110 120 .LONG "A")
        ([Bar.mk 2 108 102 104] ++ Bar.mk 3 112 106 108 :: []) =
      some (Bar.mk 3 112 106 108,
        firstHitExit (Signal.mk 1 100 95 110 120 .LONG "A") (Bar.mk 3 112 106 108)) :=
  (scan_exits_on_first_hit_with_stop_priority
    (Signal.mk 1 100 95 110 120 .LONG "A") [Bar.mk 2 108 102 104] []
    (Bar.mk 3 112 106 108) (by decide) (by decide)).1

lemma simulate_ok_plOf (sig : Signal) (future : List Bar) (o : Outcome)
    (hne : sig.entry_price ≠ 0) (h : simulate sig future = .ok o) :
    plOf sig o.exit_price = .ok o.profit_loss := by
  cases future with
  | nil =>
    simp only [simulate, Except.ok.injEq] at h
    subst h
    simp only [plOf, if_neg hne]
    cases sig.signal_type <;> simp
  | cons hd tl =>
    simp only [simulate] at h
    rcases hscan : scanBars sig (hd :: tl) with _ | ⟨bar, reason, xp⟩
    · rw [hscan] at h
      dsimp only at h
      rcases hpl : plOf sig ((hd :: tl).getLast (List.cons_ne_nil hd tl)).close with e | pl
      · rw [hpl] at h; cases h
      · rw [hpl] at h
        simp only [Except.ok.injEq] at h
        subst h
        exact hpl
    · rw [hscan] at h
      dsimp only at h
      rcases hpl : plOf sig xp with e | pl
      · rw [hpl] at h; cases h
      · rw [hpl] at h
        simp only [Except.ok.injEq] at h
        subst h
        exact hpl

lemma div_mul_hundred_pos_iff (d e : ℚ) (he : 0 < e) :
    0 < d / e * 100 ↔ 0 < d := by
  rw [div_mul_eq_mul_div, div_pos_iff]
  constructor
  · rintro (⟨h1, _⟩ | ⟨_, h2⟩)
    · nlinarith
    · linarith
  · intro h
    exact Or.inl ⟨by nlinarith, he⟩

/-- C2: with a positive entry price, every simulated outcome's
profit-loss equals the percentage formula for its direction, and is
positive exactly when the exit price is on the profitable side of the
entry price. -/
theorem simulate_profit_loss_formula
    (sig : Signal) (future : List Bar) (o : Outcome)
    (hpos : 0 < sig.entry_price) (h : simulate sig future = .ok o) :
    (sig.signal_type = .LONG →
      o.profit_loss = (o.exit_price - sig.entry_price) / sig.entry_price * 100 ∧
      (0 < o.profit_loss ↔ sig.entry_price < o.exit_price)) ∧
    (sig.signal_type = .SHORT →
      o.profit_loss = (sig.entry_price - o.exit_price) / sig.entry_price * 100 ∧
      (0 < o.profit_loss ↔ o.exit_price < sig.entry_price)) := by
  have hne : sig.entry_price ≠ 0 := ne_of_gt hpos
  have hpl := simulate_ok_plOf sig future o hne h
  constructor
  · intro htype
    simp only [plOf, if_neg hne, htype, Except.ok.injEq] at hpl
    refine ⟨hpl.symm, ?_⟩
    rw [← hpl, div_mul_hundred_pos_iff _ _ hpos, sub_pos]
  · intro htype
    simp only [plOf, if_neg hne, htype, Except.ok.injEq] at hpl
    refine ⟨hpl.symm, ?_⟩
    rw [← hpl, div_mul_hundred_pos_iff _ _ hpos, sub_pos]

/-- Concrete run of C2: the LONG target1 exit at 110 from entry 100 has
profit-loss `(110 - 100) / 100 * 100`. -/
theorem simulate_profit_loss_formula_witness :
    (Outcome.mk 110 3 10 .Target1).profit_loss =
      ((Outcome.mk 110 3 10 .Target1).exit_price -
        (Signal.mk 1 100 95 110 120 .LONG "A").entry_price) /
        (Signal.mk 1 100 95 110 120 .LONG "A").entry_price * 100 :=
  ((simulate_profit_loss_formula (Signal.mk 1 100 95 110 120 .LONG "A")
    [Bar.mk 2 108 102 104, Bar.mk 3 112 106 108] (Outcome.mk 110 3 10 .Target1)
    (by norm_num) (by norm_num [simulate, scanBars, plOf])).1 rfl).1

lemma scanBars_price_of_reason (sig : Signal) (l : List Bar) (b : Bar)
    (r : ExitReason) (xp : ℚ) (h : scanBars sig l = some (b, r, xp)) :
    (r = .StopLoss ∧ xp = sig.stop_loss) ∨ (r = .Target1 ∧ xp = sig.target1) ∨
    (r = .Target2 ∧ xp = sig.target2) := by
  induction l with
  | nil => simp [scanBars] at h
  | cons hd tl ih =>
    cases htype : sig.signal_type
    case LONG =>
      simp only [scanBars, htype] at h
      split_ifs at h with h1 h2 h3
      · simp only [Option.some.injEq, Prod.mk.injEq] at h
        exact Or.inl ⟨h.2.1.symm, h.2.2.symm⟩
      · simp only [Option.some.injEq, Prod.mk.injEq] at h
        exact Or.inr (Or.inl ⟨h.2.1.symm, h.2.2.symm⟩)
      · simp only [Option.some.injEq, Prod.mk.injEq] at h
        exact Or.inr (Or.inr ⟨h.2.1.symm, h.2.2.symm⟩)
      · exact ih h
    case SHORT =>
      simp only [scanBars, htype] at h
      split_ifs at h with h1 h2 h3
      · simp only [Option.some.injEq, Prod.mk.injEq] at h
        exact Or.inl ⟨h.2.1.symm, h.2.2.symm⟩
      · simp only [Option.some.injEq, Prod.mk.injEq] at h
        exact Or.inr (Or.inl ⟨h.2.1.symm, h.2.2.symm⟩)
      · simp only [Option.some.injEq, Prod.mk.injEq] at h
        exact Or.inr (Or.inr ⟨h.2.1.symm, h.2.2.symm⟩)
      · exact ih h

/-- C3: every simulated outcome's exit price matches its exit reason:
the stop-loss price for StopLoss, target prices for Target1/Target2,
and for EndOfData the entry price on an empty future or the last future
bar's close otherwise. -/
theorem simulate_exit_price_matches_reason
    (sig : Signal) (future : List Bar) (o : Outcome)
    (h : simulate sig future = .ok o) :
    (o.exit_reason = .StopLoss → o.exit_price = sig.stop_loss) ∧
    (o.exit_reason = .Target1 → o.exit_price = sig.target1) ∧
    (o.exit_reason = .Target2 → o.exit_price = sig.target2) ∧
    (o.exit_reason = .EndOfData →
      (future = [] → o.exit_price = sig.entry_price) ∧
      (∀ b bs, future = b :: bs →
        o.exit_price = ((b :: bs).getLast (List.cons_ne_nil b bs)).close)) := by
  cases future with
  | nil =>
    simp only [simulate, Except.ok.injEq] at h
    subst h
    refine ⟨?_, ?_, ?_, ?_⟩
    · intro hc; simp at hc
    · intro hc; simp at hc
    · intro hc; simp at hc
    · intro _
      exact ⟨fun _ => rfl, fun b bs hbs => by cases hbs⟩
  | cons hd tl =>
    simp only [simulate] at h
    rcases hscan : scanBars sig (hd :: tl) with _ | ⟨bar, reason, xp⟩
    · rw [hscan] at h
      dsimp only at h
      rcases hpl : plOf sig ((hd :: tl).getLast (List.cons_ne_nil hd tl)).close with e | pl
      · rw [hpl] at h; cases h
      · rw [hpl] at h
        simp only [Except.ok.injEq] at h
        subst h
        refine ⟨?_, ?_, ?_, ?_⟩
        · intro hc; simp at hc
        · intro hc; simp at hc
        · intro hc; simp at hc
        · intro _
          refine ⟨fun hc => (by cases hc), fun b bs hbs => ?_⟩
          injection hbs with hb hbs'
          subst hb; subst hbs'
          rfl
    · rw [hscan] at h
      dsimp only at h
      rcases hpl : plOf sig xp with e | pl
      · rw [hpl] at h; cases h
      · rw [hpl] at h
        simp only [Except.ok.injEq] at h
        subst h
        rcases scanBars_price_of_reason sig (hd :: tl) bar reason xp hscan with
          ⟨hr, hx⟩ | ⟨hr, hx⟩ | ⟨hr, hx⟩
        · subst hr; subst hx
          refine ⟨fun _ => rfl, ?_, ?_, ?_⟩
          · intro hc; simp at hc
          · intro hc; simp at hc
          · intro hc; simp at hc
        · subst hr; subst hx
          refine ⟨?_, fun _ => rfl, ?_, ?_⟩
          · intro hc; simp at hc
          · intro hc; simp at hc
          · intro hc; simp at hc
        · subst hr; subst hx
          refine ⟨?_, ?_, fun _ => rfl, ?_⟩
          · intro hc; simp at hc
          · intro hc; simp at hc
          · intro hc; simp at hc

/-- Concrete run of C3: the Target1 exit of the scenario signal carries
exit price equal to its target1. -/
theorem simulate_exit_price_matches_reason_witness :
    (Outcome.mk 110 3 10 .Target1).exit_price =
      (Signal.mk 1 100 95 110 120 .LONG "A").target1 :=
  (simulate_exit_price_matches_reason (Signal.mk 1 100 95 110 120 .LONG "A")
    [Bar.mk 2 108 102 104, Bar.mk 3 112 106 108] (Outcome.mk 110 3 10 .Target1)
    (by norm_num [simulate, scanBars, plOf])).2.1 rfl

/-- C9: on an empty future-bar sequence the simulator returns the flat
outcome: exit price is the entry price, exit time the anchor timestamp,
profit-loss 0 and reason EndOfData. -/
theorem simulate_empty_future_flat (sig : Signal) :
    simulate sig [] =
      .ok { exit_price := sig.entry_price, exit_time := sig.timestamp,
            profit_loss := 0, exit_reason := .EndOfData } := rfl

/-- C4 as the code behaves (the claim fails): with one collected signal
whose anchor timestamp could not be resolved (so the loop's `continue`
left it outcome-less) and one healthy LONG signal that exits on target1,
the whole backtest returns null — the outcome-less signal reaches the
statistics pass, whose first comparison raises — although the healthy
signal alone produces a result. -/
theorem skipped_signal_aborts_whole_backtest :
    runBacktest (some [Bar.mk 1 101 99 100, Bar.mk 2 112 106 108])
      [CollectedSignal.mk (Signal.mk 9 100 95 110 120 .LONG "A") none,
       CollectedSignal.mk (Signal.mk 1 100 95 110 120 .LONG "A") (some 0)] = none ∧
    (runBacktest (some [Bar.mk 1 101 99 100, Bar.mk 2 112 106 108])
      [CollectedSignal.mk (Signal.mk 1 100 95 110 120 .LONG "A") (some 0)]).isSome
      = true := by
  constructor
  · rfl
  · rfl

/-- C5's claimed behavior is false on the code: a LONG signal with entry
price 0 whose stop-loss fires on the first future bar makes the
profit-loss division raise, so simulation yields an error, not a defined
fallback profit-loss. -/
theorem zero_entry_price_simulation_raises :
    simulate (Signal.mk 0 0 5 20 30 .LONG "A") [Bar.mk 1 10 4 9] =
      .error () := by
  norm_num [simulate, scanBars, plOf]

/-- C5 (amended): the zero-loss-sum and zero-total-signals degeneracies
are special-cased to defined fallbacks, but a zero entry price is not:
the profit-loss division raises, and the top-level handler turns the
whole run into a null result without assigning any fallback
profit-loss. -/
theorem arithmetic_degeneracy_fallbacks :
    (∀ pls : List ℚ, losingSum pls = 0 →
      profitFactor pls = if 0 < winningSum pls then winningSum pls else 0) ∧
    ((computeStats []).win_rate = 0 ∧ (computeStats []).avg_profit = 0 ∧
      (computeStats []).max_drawdown = 0 ∧ (computeStats []).profit_factor = 0) ∧
    (runBacktest (some [Bar.mk 0 9 9 9, Bar.mk 1 10 4 9])
      [CollectedSignal.mk (Signal.mk 0 0 5 20 30 .LONG "A") (some 0)] = none) := by
  refine ⟨?_, ?_, ?_⟩
  · intro pls h
    rw [profitFactor, h]
    simp
  · refine ⟨rfl, rfl, rfl, ?_⟩
    norm_num [computeStats, profitFactor, losingSum, winningSum, plsOf]
  · rfl

/-- Concrete instance of the zero-loss-sum fallback of the amended C5:
one all-winning signal set. -/
theorem arithmetic_degeneracy_fallbacks_witness :
    profitFactor [(5 : ℚ)] =
      if 0 < winningSum [(5 : ℚ)] then winningSum [(5 : ℚ)] else 0 :=
  arithmetic_degeneracy_fallbacks.1 [(5 : ℚ)] (by norm_num [losingSum])

/-- C6: the backtest runner returns null exactly when the bar series is
unavailable (`None`), empty, or the body raised — the top-level handler
converts every body error into null, and being a total function into an
optional result, nothing escapes its boundary. -/
theorem runBacktest_null_iff (df : Option (List Bar))
    (collected : List CollectedSignal) :
    runBacktest df collected = none ↔
      (df = none ∨ df = some [] ∨
        ∃ bars, df = some bars ∧
          ∃ e, runBacktestBody bars collected = .error e) := by
  cases df with
  | none => simp [runBacktest]
  | some bars =>
    cases bars with
    | nil => simp [runBacktest]
    | cons b bs =>
      simp only [runBacktest]
      rcases hbody : runBacktestBody (b :: bs) collected with e | r
      · simp [hbody]
      · simp [hbody]

/-! Helper lemmas for the statistics pass. -/

/-- Profit-loss values of the signals of one strategy group. -/
def plsFor (key : String) (terms : List (Signal × Outcome)) : List ℚ :=
  plsOf (terms.filter (fun t => t.1.strategy = key))

/-- Keys of the insertion-ordered strategy map. -/
def keysOf (m : List (String × StratAcc)) : List String := m.map Prod.fst

lemma filter_pos_nonpos_length (pls : List ℚ) :
    (pls.filter (fun p => 0 < p)).length + (pls.filter (fun p => p ≤ 0)).length
      = pls.length := by
  induction pls with
  | nil => rfl
  | cons p rest ih =>
    by_cases hp : 0 < p
    · have e1 : (p :: rest).filter (fun q => 0 < q) =
          p :: rest.filter (fun q => 0 < q) := by simp [List.filter_cons, hp]
      have e2 : (p :: rest).filter (fun q => q ≤ 0) =
          rest.filter (fun q => q ≤ 0) := by simp [List.filter_cons, not_le.mpr hp]
      rw [e1, e2, List.length_cons, List.length_cons]
      omega
    · have e1 : (p :: rest).filter (fun q => 0 < q) =
          rest.filter (fun q => 0 < q) := by simp [List.filter_cons, hp]
      have e2 : (p :: rest).filter (fun q => q ≤ 0) =
          p :: rest.filter (fun q => q ≤ 0) := by
        simp [List.filter_cons, not_lt.mp hp]
      rw [e1, e2, List.length_cons, List.length_cons]
      omega

lemma filter_neg_sum_nonpos (pls : List ℚ) :
    (pls.filter (fun p => p < 0)).sum ≤ 0 := by
  induction pls with
  | nil => simp
  | cons p rest ih =>
    by_cases hp : p < 0
    · have e : (p :: rest).filter (fun q => q < 0) =
          p :: rest.filter (fun q => q < 0) := by simp [List.filter_cons, hp]
      rw [e, List.sum_cons]
      linarith
    · have e : (p :: rest).filter (fun q => q < 0) =
          rest.filter (fun q => q < 0) := by simp [List.filter_cons, hp]
      rw [e]
      exact ih

lemma abs_filter_nonpos_sum (pls : List ℚ) :
    ((pls.filter (fun p => p ≤ 0)).map (fun p => |p|)).sum =
      |(pls.filter (fun p => p < 0)).sum| := by
  induction pls with
  | nil => simp
  | cons p rest ih =>
    rcases lt_trichotomy p 0 with hp | hp | hp
    · have hple : p ≤ 0 := le_of_lt hp
      have hs := filter_neg_sum_nonpos rest
      have e1 : (p :: rest).filter (fun q => q ≤ 0) =
          p :: rest.filter (fun q => q ≤ 0) := by simp [List.filter_cons, hple]
      have e2 : (p :: rest).filter (fun q => q < 0) =
          p :: rest.filter (fun q => q < 0) := by simp [List.filter_cons, hp]
      rw [e1, e2, List.map_cons, List.sum_cons, List.sum_cons, ih,
        abs_of_nonpos hple, abs_of_nonpos hs,
        abs_of_nonpos (by linarith : p + (rest.filter (fun q => q < 0)).sum ≤ 0)]
      ring
    · subst hp
      have e1 : ((0 : ℚ) :: rest).filter (fun q => q ≤ 0) =
          0 :: rest.filter (fun q => q ≤ 0) := by simp [List.filter_cons]
      have e2 : ((0 : ℚ) :: rest).filter (fun q => q < 0) =
          rest.filter (fun q => q < 0) := by simp [List.filter_cons]
      rw [e1, e2, List.map_cons, List.sum_cons, abs_zero, zero_add]
      exact ih
    · have e1 : (p :: rest).filter (fun q => q ≤ 0) =
          rest.filter (fun q => q ≤ 0) := by simp [List.filter_cons, not_le.mpr hp]
      have e2 : (p :: rest).filter (fun q => q < 0) =
          rest.filter (fun q => q < 0) := by
        simp [List.filter_cons, not_lt.mpr (le_of_lt hp)]
      rw [e1, e2]
      exact ih

lemma foldl_update_profit_sum (pls : List ℚ) : ∀ a : StratAcc,
    (pls.foldl StratAcc.update a).profit_sum =
      a.profit_sum + (pls.filter (fun p => 0 < p)).sum := by
  induction pls with
  | nil => intro a; simp
  | cons p rest ih =>
    intro a
    rw [List.foldl_cons, ih (a.update p)]
    have hupd : (a.update p).profit_sum =
        a.profit_sum + (if 0 < p then p else 0) := rfl
    by_cases hp : 0 < p
    · have e : (p :: rest).filter (fun q => 0 < q) =
          p :: rest.filter (fun q => 0 < q) := by simp [List.filter_cons, hp]
      rw [e, List.sum_cons, hupd, if_pos hp]
      ring
    · have e : (p :: rest).filter (fun q => 0 < q) =
          rest.filter (fun q => 0 < q) := by simp [List.filter_cons, hp]
      rw [e, hupd, if_neg hp, add_zero]

lemma foldl_update_loss_sum (pls : List ℚ) : ∀ a : StratAcc,
    (pls.foldl StratAcc.update a).loss_sum =
      a.loss_sum + ((pls.filter (fun p => p ≤ 0)).map (fun p => |p|)).sum := by
  induction pls with
  | nil => intro a; simp
  | cons p rest ih =>
    intro a
    rw [List.foldl_cons, ih (a.update p)]
    have hupd : (a.update p).loss_sum =
        a.loss_sum + (if 0 < p then 0 else |p|) := rfl
    by_cases hp : 0 < p
    · have e : (p :: rest).filter (fun q => q ≤ 0) =
          rest.filter (fun q => q ≤ 0) := by simp [List.filter_cons, not_le.mpr hp]
      rw [e, hupd, if_pos hp, add_zero]
    · have e : (p :: rest).filter (fun q => q ≤ 0) =
          p :: rest.filter (fun q => q ≤ 0) := by
        simp [List.filter_cons, not_lt.mp hp]
      rw [e, List.map_cons, List.sum_cons, hupd, if_neg hp]
      ring

lemma plsFor_cons (key : String) (t : Signal × Outcome)
    (rest : List (Signal × Outcome)) :
    plsFor key (t :: rest) =
      if t.1.strategy = key then t.2.profit_loss :: plsFor key rest
      else plsFor key rest := by
  by_cases h : t.1.strategy = key <;> simp [plsFor, plsOf, List.filter_cons, h]

lemma findAcc_updMap_self (m : List (String × StratAcc)) (key : String) (pl : ℚ) :
    findAcc key (updMap m key pl) =
      some (StratAcc.update ((findAcc key m).getD StratAcc.init) pl) := by
  induction m with
  | nil => simp [updMap, findAcc]
  | cons kv rest ih =>
    obtain ⟨k, a⟩ := kv
    by_cases hk : k = key
    · subst hk; simp [updMap, findAcc]
    · simp [updMap, findAcc, hk, ih]

lemma findAcc_updMap_other (m : List (String × StratAcc)) (k' key : String)
    (pl : ℚ) (h : k' ≠ key) :
    findAcc key (updMap m k' pl) = findAcc key m := by
  induction m with
  | nil => simp [updMap, findAcc, h]
  | cons kv rest ih =>
    obtain ⟨k, a⟩ := kv
    by_cases hk : k = k'
    · subst hk; simp [updMap, findAcc, h]
    · simp [updMap, findAcc, hk, ih]

lemma findAcc_foldl_some (key : String) (terms : List (Signal × Outcome)) :
    ∀ (m : List (String × StratAcc)) (a : StratAcc), findAcc key m = some a →
    findAcc key
        (terms.foldl (fun m' t => updMap m' t.1.strategy t.2.profit_loss) m) =
      some ((plsFor key terms).foldl StratAcc.update a) := by
  induction terms with
  | nil =>
    intro m a h
    simpa [plsFor, plsOf] using h
  | cons t rest ih =>
    intro m a h
    rw [List.foldl_cons]
    by_cases ht : t.1.strategy = key
    · have h2 : findAcc key (updMap m t.1.strategy t.2.profit_loss) =
          some (a.update t.2.profit_loss) := by
        rw [ht, findAcc_updMap_self, h]
        rfl
      rw [ih _ _ h2, plsFor_cons, if_pos ht, List.foldl_cons]
    · have h2 : findAcc key (updMap m t.1.strategy t.2.profit_loss) = some a := by
        rw [findAcc_updMap_other _ _ _ _ ht, h]
      rw [ih _ _ h2, plsFor_cons, if_neg ht]

lemma findAcc_foldl_none (key : String) (terms : List (Signal × Outcome)) :
    ∀ m : List (String × StratAcc), findAcc key m = none →
    findAcc key
        (terms.foldl (fun m' t => updMap m' t.1.strategy t.2.profit_loss) m) =
      if plsFor key terms = [] then none
      else some ((plsFor key terms).foldl StratAcc.update StratAcc.init) := by
  induction terms with
  | nil =>
    intro m h
    simpa [plsFor, plsOf] using h
  | cons t rest ih =>
    intro m h
    rw [List.foldl_cons]
    by_cases ht : t.1.strategy = key
    · have h2 : findAcc key (updMap m t.1.strategy t.2.profit_loss) =
          some (StratAcc.init.update t.2.profit_loss) := by
        rw [ht, findAcc_updMap_self, h]
        rfl
      rw [findAcc_foldl_some key rest _ _ h2, plsFor_cons, if_pos ht]
      simp
    · have h2 : findAcc key (updMap m t.1.strategy t.2.profit_loss) = none := by
        rw [findAcc_updMap_other _ _ _ _ ht, h]
      rw [ih _ h2, plsFor_cons, if_neg ht]

lemma keysOf_updMap (m : List (String × StratAcc)) (key : String) (pl : ℚ) :
    keysOf (updMap m key pl) =
      if key ∈ keysOf m then keysOf m else keysOf m ++ [key] := by
  induction m with
  | nil => simp [updMap, keysOf]
  | cons kv rest ih =>
    obtain ⟨k, a⟩ := kv
    by_cases hk : k = key
    · subst hk
      simp [updMap, keysOf]
    · have hmemiff : key ∈ keysOf ((k, a) :: rest) ↔ key ∈ keysOf rest := by
        simp [keysOf, Ne.symm hk]
      have hcons : keysOf ((k, a) :: updMap rest key pl) =
          k :: keysOf (updMap rest key pl) := rfl
      simp only [updMap, if_neg hk, hcons, ih]
      by_cases hmem : key ∈ keysOf rest
      · rw [if_pos hmem, if_pos (hmemiff.mpr hmem)]
        rfl
      · rw [if_neg hmem, if_neg (fun hc => hmem (hmemiff.mp hc))]
        rfl

lemma nodup_keysOf_updMap (m : List (String × StratAcc)) (key : String) (pl : ℚ)
    (h : (keysOf m).Nodup) : (keysOf (updMap m key pl)).Nodup := by
  rw [keysOf_updMap]
  by_cases hmem : key ∈ keysOf m
  · rwa [if_pos hmem]
  · rw [if_neg hmem]
    simp [List.nodup_append, h, hmem]

lemma nodup_keysOf_foldl (terms : List (Signal × Outcome)) :
    ∀ m : List (String × StratAcc), (keysOf m).Nodup →
    (keysOf
      (terms.foldl (fun m' t => updMap m' t.1.strategy t.2.profit_loss) m)).Nodup := by
  induction terms with
  | nil => intro m h; exact h
  | cons t rest ih =>
    intro m h
    rw [List.foldl_cons]
    exact ih _ (nodup_keysOf_updMap _ _ _ h)

lemma findAcc_of_mem (m : List (String × StratAcc)) (h : (keysOf m).Nodup)
    (s : String) (a : StratAcc) (hmem : (s, a) ∈ m) : findAcc s m = some a := by
  induction m with
  | nil => cases hmem
  | cons kv rest ih =>
    obtain ⟨k, b⟩ := kv
    rcases List.mem_cons.mp hmem with heq | hmem'
    · cases heq
      simp [findAcc]
    · have hk : k ≠ s := by
        intro hc
        subst hc
        have hmemk : k ∈ keysOf rest := by
          simp only [keysOf, List.mem_map]
          exact ⟨(k, a), hmem', rfl⟩
        exact (List.nodup_cons.mp h).1 hmemk
      simp only [findAcc, if_neg hk]
      exact ih (List.nodup_cons.mp h).2 hmem'

lemma winningSum_nonneg (pls : List ℚ) : 0 ≤ winningSum pls := by
  apply List.sum_nonneg
  intro p hp
  have hmem := List.mem_filter.mp hp
  have hp' : 0 < p := by simpa using hmem.2
  exact le_of_lt hp'

lemma losingSum_nonneg (pls : List ℚ) : 0 ≤ losingSum pls := abs_nonneg _

lemma profitFactor_nonneg (pls : List ℚ) : 0 ≤ profitFactor pls := by
  unfold profitFactor
  split_ifs with h1 h2
  · exact div_nonneg (winningSum_nonneg pls) (le_of_lt h1)
  · exact le_of_lt h2
  · exact le_refl 0

lemma finalizePerf_pf (a : StratAcc) :
    (finalizePerf a).profit_factor =
      if 0 < a.loss_sum then a.profit_sum / a.loss_sum
      else if 0 < a.profit_sum then a.profit_sum else 0 := rfl

lemma strategy_perf_mem (terms : List (Signal × Outcome)) (s : String)
    (perf : StratPerf)
    (hmem : (s, perf) ∈ (computeStats terms).strategy_performance) :
    perf = finalizePerf ((plsFor s terms).foldl StratAcc.update StratAcc.init) := by
  have hmem' : ∃ p ∈ buildStratPerf terms, (p.1, finalizePerf p.2) = (s, perf) := by
    simpa [computeStats] using hmem
  obtain ⟨⟨s', acc⟩, hin, heq⟩ := hmem'
  have hs : s' = s := congrArg Prod.fst heq
  have hperf : finalizePerf acc = perf := congrArg Prod.snd heq
  subst hs
  have hnodup : (keysOf (buildStratPerf terms)).Nodup :=
    nodup_keysOf_foldl terms [] (by simp [keysOf])
  have hfind : findAcc s' (buildStratPerf terms) = some acc :=
    findAcc_of_mem _ hnodup _ _ hin
  have hfold := findAcc_foldl_none s' terms [] rfl
  unfold buildStratPerf at hfind
  rw [hfold] at hfind
  by_cases hnil : plsFor s' terms = []
  · rw [if_pos hnil] at hfind
    cases hfind
  · rw [if_neg hnil] at hfind
    have hacc : acc = (plsFor s' terms).foldl StratAcc.update StratAcc.init :=
      (Option.some.injEq _ _ |>.mp hfind).symm
    rw [← hperf, hacc]

lemma accOf_profit_sum (gpls : List ℚ) :
    ((gpls.foldl StratAcc.update StratAcc.init)).profit_sum = winningSum gpls := by
  rw [foldl_update_profit_sum]
  simp [StratAcc.init, winningSum]

lemma accOf_loss_sum (gpls : List ℚ) :
    ((gpls.foldl StratAcc.update StratAcc.init)).loss_sum = losingSum gpls := by
  rw [foldl_update_loss_sum]
  rw [abs_filter_nonpos_sum]
  simp [StratAcc.init, losingSum]

lemma computeStats_winning (terms : List (Signal × Outcome)) :
    (computeStats terms).winning_signals =
      ((plsOf terms).filter (fun p => 0 < p)).length := rfl

lemma computeStats_losing (terms : List (Signal × Outcome)) :
    (computeStats terms).losing_signals =
      ((plsOf terms).filter (fun p => p ≤ 0)).length := rfl

lemma computeStats_total (terms : List (Signal × Outcome)) :
    (computeStats terms).total_signals = terms.length := rfl

lemma computeStats_win_rate (terms : List (Signal × Outcome)) :
    (computeStats terms).win_rate =
      if 0 < terms.length then
        ((((plsOf terms).filter (fun p => 0 < p)).length : ℚ) /
          (terms.length : ℚ)) * 100
      else 0 := rfl

lemma computeStats_pf (terms : List (Signal × Outcome)) :
    (computeStats terms).profit_factor = profitFactor (plsOf terms) := rfl

/-- C7: both globally and inside every per-strategy group, the profit
factor is the winning sum over the absolute losing sum when the loss sum
is nonzero, falls back to the winning sum (or 0) when the loss sum is
zero, and is always nonnegative — so it is defined on all-winning and
all-losing signal sets alike. -/
theorem profit_factor_global_and_per_strategy (terms : List (Signal × Outcome)) :
    0 ≤ (computeStats terms).profit_factor ∧
    (losingSum (plsOf terms) ≠ 0 →
      (computeStats terms).profit_factor =
        winningSum (plsOf terms) / losingSum (plsOf terms)) ∧
    (losingSum (plsOf terms) = 0 →
      (computeStats terms).profit_factor =
        if 0 < winningSum (plsOf terms) then winningSum (plsOf terms) else 0) ∧
    (∀ s perf, (s, perf) ∈ (computeStats terms).strategy_performance →
      0 ≤ perf.profit_factor ∧
      (losingSum (plsFor s terms) ≠ 0 →
        perf.profit_factor =
          winningSum (plsFor s terms) / losingSum (plsFor s terms)) ∧
      (losingSum (plsFor s terms) = 0 →
        perf.profit_factor =
          if 0 < winningSum (plsFor s terms) then winningSum (plsFor s terms)
          else 0)) := by
  refine ⟨?_, ?_, ?_, ?_⟩
  · rw [computeStats_pf]
    exact profitFactor_nonneg _
  · intro h
    rw [computeStats_pf, profitFactor,
      if_pos (lt_of_le_of_ne (losingSum_nonneg _) (Ne.symm h))]
  · intro h
    rw [computeStats_pf, profitFactor, h]
    simp
  · intro s perf hmem
    have hperf := strategy_perf_mem terms s perf hmem
    have hpf : perf.profit_factor = profitFactor (plsFor s terms) := by
      rw [hperf, finalizePerf_pf, accOf_profit_sum, accOf_loss_sum, profitFactor]
    refine ⟨?_, ?_, ?_⟩
    · rw [hpf]
      exact profitFactor_nonneg _
    · intro h
      rw [hpf, profitFactor,
        if_pos (lt_of_le_of_ne (losingSum_nonneg _) (Ne.symm h))]
    · intro h
      rw [hpf, profitFactor, h]
      simp

/-- Sample terminal collection: one winning LONG on strategy A, one
losing SHORT on strategy B. -/
def sampleTerms : List (Signal × Outcome) :=
  [(Signal.mk 1 100 95 110 120 .LONG "A", Outcome.mk 110 2 10 .Target1),
   (Signal.mk 2 100 105 90 80 .SHORT "B", Outcome.mk 105 3 (-5) .StopLoss)]

/-- Concrete run of C7: the sample collection has loss sum 5 ≠ 0, so its
profit factor is the quotient. -/
theorem profit_factor_witness :
    (computeStats sampleTerms).profit_factor =
      winningSum (plsOf sampleTerms) / losingSum (plsOf sampleTerms) :=
  (profit_factor_global_and_per_strategy sampleTerms).2.1
    (by norm_num [losingSum, plsOf, sampleTerms, List.filter_cons, abs_ne_zero])

lemma runningMaxAux_of_chain (m : ℚ) (l : List ℚ)
    (h : List.Chain (fun a b => a ≤ b) m l) : runningMaxAux m l = l := by
  induction l generalizing m with
  | nil => rfl
  | cons x xs ih =>
    rw [List.chain_cons] at h
    show max m x :: runningMaxAux (max m x) xs = x :: xs
    rw [max_eq_right h.1, ih x h.2]

lemma zipWith_dd_self (l : List ℚ) :
    List.zipWith (fun m e => (m - e) / m * 100) l l = l.map (fun _ => 0) := by
  induction l with
  | nil => rfl
  | cons x xs ih =>
    simp [List.zipWith_cons_cons, ih]

lemma foldl_max_zeros (l : List ℚ) : (l.map (fun _ => (0 : ℚ))).foldl max 0 = 0 := by
  induction l with
  | nil => rfl
  | cons x xs ih =>
    simpa [List.foldl_cons] using ih

lemma maxDrawdownOfCurve_monotone (c : ℚ) (cs : List ℚ)
    (h : List.Chain' (fun a b => a ≤ b) (c :: cs)) :
    maxDrawdownOfCurve (c :: cs) = 0 := by
  have hchain : List.Chain (fun a b => a ≤ b) c cs := h
  unfold maxDrawdownOfCurve
  rw [show accumMax (c :: cs) = c :: runningMaxAux c cs from rfl,
    runningMaxAux_of_chain c cs hchain, zipWith_dd_self,
    show (c :: cs).map (fun _ => (0 : ℚ)) = 0 :: cs.map (fun _ => (0 : ℚ)) from rfl,
    show listMax (0 :: cs.map (fun _ => (0 : ℚ))) =
      (cs.map (fun _ => (0 : ℚ))).foldl max 0 from rfl]
  exact foldl_max_zeros cs

/-- C8: max_drawdown is taken from the 100-based equity curve over the
timestamp-sorted signals as the maximum running-peak relative decline;
it is 0 when there are no signals, 0 on every positively-started
non-decreasing curve, and on the equity sequence [100, 110, 90, 95] it
equals (110 - 90) / 110 * 100. -/
theorem max_drawdown_from_equity_curve (terms : List (Signal × Outcome)) :
    ((computeStats terms).max_drawdown =
      if 0 < terms.length then
        maxDrawdownOfCurve (equityCurve 100 (plsOf (sortByTs terms)))
      else 0) ∧
    (terms = [] → (computeStats terms).max_drawdown = 0) ∧
    (∀ (c : ℚ) (cs : List ℚ), 0 < c →
      List.Chain' (fun a b => a ≤ b) (c :: cs) →
      maxDrawdownOfCurve (c :: cs) = 0) ∧
    maxDrawdownOfCurve [100, 110, 90, 95] = (110 - 90) / 110 * 100 := by
  refine ⟨rfl, ?_, ?_, ?_⟩
  · intro h
    subst h
    rfl
  · intro c cs _ hchain
    exact maxDrawdownOfCurve_monotone c cs hchain
  · norm_num [maxDrawdownOfCurve, accumMax, runningMaxAux, listMax, max_def,
      List.zipWith, List.foldl]

/-- Concrete run of C8: the non-decreasing curve [1, 2, 3] has zero
drawdown. -/
theorem max_drawdown_witness : maxDrawdownOfCurve [(1 : ℚ), 2, 3] = 0 :=
  (max_drawdown_from_equity_curve []).2.2.1 1 [2, 3] (by norm_num)
    (by norm_num [List.chain'_cons, List.chain'_singleton])

/-- C10: winning signals are exactly those with positive profit-loss and
losing signals exactly those with nonpositive profit-loss, so the two
counts add to the total; the per-strategy tally sends a zero profit-loss
to the loss branch, incrementing loss_count while leaving loss_sum
unchanged; and appending a zero-profit signal leaves the winning count
unchanged, increments the losing count, and cannot raise the win rate. -/
theorem win_loss_classification (terms : List (Signal × Outcome)) :
    (computeStats terms).winning_signals =
      ((plsOf terms).filter (fun p => 0 < p)).length ∧
    (computeStats terms).losing_signals =
      ((plsOf terms).filter (fun p => p ≤ 0)).length ∧
    (computeStats terms).winning_signals + (computeStats terms).losing_signals =
      (computeStats terms).total_signals ∧
    (∀ a : StratAcc, a.update 0 =
      { count := a.count + 1, win_count := a.win_count,
        loss_count := a.loss_count + 1, profit_sum := a.profit_sum,
        loss_sum := a.loss_sum }) ∧
    (∀ s o, o.profit_loss = 0 →
      (computeStats (terms ++ [(s, o)])).winning_signals =
        (computeStats terms).winning_signals ∧
      (computeStats (terms ++ [(s, o)])).losing_signals =
        (computeStats terms).losing_signals + 1 ∧
      (computeStats (terms ++ [(s, o)])).win_rate ≤
        (computeStats terms).win_rate) := by
  refine ⟨rfl, rfl, ?_, ?_, ?_⟩
  · rw [computeStats_winning, computeStats_losing, computeStats_total,
      filter_pos_nonpos_length]
    simp [plsOf]
  · intro a
    have h1 : ¬ (0 : ℚ) < 0 := lt_irrefl 0
    simp [StratAcc.update, h1]
  · intro s o h
    have hpls : plsOf (terms ++ [(s, o)]) = plsOf terms ++ [0] := by
      simp [plsOf, h]
    have hf0 : ([(0 : ℚ)].filter (fun p => 0 < p)) = [] := by simp
    have hf1 : ([(0 : ℚ)].filter (fun p => p ≤ 0)) = [0] := by simp
    have hwin : ((plsOf (terms ++ [(s, o)])).filter (fun p => 0 < p)).length =
        ((plsOf terms).filter (fun p => 0 < p)).length := by
      rw [hpls, List.filter_append, hf0, List.append_nil]
    have hlos : ((plsOf (terms ++ [(s, o)])).filter (fun p => p ≤ 0)).length =
        ((plsOf terms).filter (fun p => p ≤ 0)).length + 1 := by
      rw [hpls, List.filter_append, hf1, List.length_append, List.length_singleton]
    refine ⟨?_, ?_, ?_⟩
    · rw [computeStats_winning, computeStats_winning, hwin]
    · rw [computeStats_losing, computeStats_losing, hlos]
    · rw [computeStats_win_rate, computeStats_win_rate]
      have hlen : (terms ++ [(s, o)]).length = terms.length + 1 := by simp
      rcases Nat.eq_zero_or_pos terms.length with hn | hn
      · have hterms : terms = [] := List.length_eq_zero.mp hn
        subst hterms
        norm_num [plsOf, h, List.filter_cons]
      · rw [hlen, if_pos (Nat.succ_pos _), if_pos hn, hwin]
        have hw : (0 : ℚ) ≤ (((plsOf terms).filter (fun p => 0 < p)).length : ℚ) :=
          Nat.cast_nonneg _
        have hnq : (0 : ℚ) < (terms.length : ℚ) := by exact_mod_cast hn
        have hle : (terms.length : ℚ) ≤ ((terms.length + 1 : ℕ) : ℚ) := by
          push_cast
          linarith
        exact mul_le_mul_of_nonneg_right
          (div_le_div_of_nonneg_left hw hnq hle) (by norm_num)

/-- Concrete run of C10: appending a flat (zero profit-loss) signal to
the sample collection increments the losing count. -/
theorem win_loss_classification_witness :
    (computeStats (sampleTerms ++
        [(Signal.mk 3 100 95 110 120 .LONG "A",
          Outcome.mk 100 4 0 .EndOfData)])).losing_signals =
      (computeStats sampleTerms).losing_signals + 1 :=
  ((win_loss_classification sampleTerms).2.2.2.2
    (Signal.mk 3 100 95 110 120 .LONG "A")
    (Outcome.mk 100 4 0 .EndOfData) rfl).2.1

end TradeSage
